import Mathlib

/-!
Shallow embedding of the `EasyWriter` typewriter-effect component
(`src/TypeWriter.ts`).

The component has two phases:

* a *building* phase, in which `write` / `erase` / `eraseLast` / `eraseAll`
  accumulate instructions in a queue and maintain two counters
  (`_charsNum`, `_eraseNum`); errors are thrown synchronously;
* a *playback* phase (after `start()`), driven by `setTimeout` /
  `setInterval` callbacks.  JavaScript timers fire one at a time, so the
  playback is a deterministic sequence of callback executions; we model it
  as a step function `tick` on an explicit machine state.  Real-time delays
  (`typeDelay`, per-instruction delays) only stretch the wall-clock spacing
  of the steps and never change their order, so they are carried in the
  data but do not influence `tick`.

Numeric fields are modelled as `Int` (JavaScript numbers under integer
arithmetic): the code itself produces negative intermediate values
(`erase` decrements `_charsNum` before re-adding, `eraseAll` may compute a
negative count).  `'\r'.repeat(count)` throws a `RangeError` when `count`
is negative; this is modelled by the `rangeError` outcome.  Element text
(`innerText`) is modelled as `List Char`; the `classList` entries `typing`
and `hide-cursor` as two booleans.
-/

namespace EasyWriter

/-- Configuration record (`EasyWriterConfig` minus the DOM element, which is
modelled separately as the visible text / class booleans). -/
structure Config where
  typeDelay : Nat
  loop : Bool
  loopFrom : Nat
  hideCursorOnEnd : Bool
deriving DecidableEq

/-- One queued instruction: an entry of `_writes` (`{ text, delay }`). -/
structure Instr where
  text : List Char
  delay : Nat
deriving DecidableEq

/-- The synchronous errors the component can throw while building:
`AlreadyStartedError` (mutating after `start`), `NoPriorWriteError`
(`eraseLast` on an empty queue), and the JavaScript `RangeError` raised by
`'\r'.repeat(count)` for a negative `count`. -/
inductive EWError where
  | alreadyStarted
  | noPriorWrite
  | rangeError
deriving DecidableEq

/-- Builder-phase state: the instruction queue `_writes` and the fields
`_eraseNum`, `_charsNum`, `_typingStarted`. -/
structure Builder where
  writes : List Instr
  eraseNum : Int
  charsNum : Int
  typingStarted : Bool
deriving DecidableEq

/-- Field initialisers of a fresh `EasyWriter` instance. -/
def initBuilder : Builder :=
  { writes := [], eraseNum := 0, charsNum := 0, typingStarted := false }

/-- `write(text, delay)`: throws `AlreadyStartedError` if `_typingStarted`,
otherwise adds `text.length` to `_charsNum` and pushes `{text, delay}`.
The returned pair is (thrown error if any, state after the call) — in
JavaScript the instance keeps whatever mutations happened before a throw. -/
def write (b : Builder) (text : List Char) (delay : Nat) :
    Option EWError × Builder :=
  if b.typingStarted then (some .alreadyStarted, b)
  else (none, { b with
                  charsNum := b.charsNum + (text.length : Int),
                  writes := b.writes ++ [⟨text, delay⟩] })

/-- `erase(count, delay)`: adds `count` to `_eraseNum`, subtracts it from
`_charsNum`, then calls `write('\r'.repeat(count), delay)`.  The repeat
throws `RangeError` for a negative count, after the two counter mutations
and before `write` runs. -/
def erase (b : Builder) (count : Int) (delay : Nat) :
    Option EWError × Builder :=
  let b1 : Builder :=
    { b with eraseNum := b.eraseNum + count, charsNum := b.charsNum - count }
  if count < 0 then (some .rangeError, b1)
  else write b1 (List.replicate count.toNat '\r') delay

/-- `eraseLast(delay)`: reads the last queued instruction
(`_writes.slice(-1)[0]`), throws `NoPriorWriteError` when there is none,
otherwise erases that instruction's text length. -/
def eraseLast (b : Builder) (delay : Nat) : Option EWError × Builder :=
  match b.writes.getLast? with
  | none => (some .noPriorWrite, b)
  | some last => erase b (last.text.length : Int) delay

/-- `eraseAll(delay)`: erases `element.innerText.length + _charsNum -
_eraseNum` characters.  The element's current visible-text length is passed
in as `elemLen`. -/
def eraseAll (b : Builder) (elemLen : Nat) (delay : Nat) :
    Option EWError × Builder :=
  erase b ((elemLen : Int) + b.charsNum - b.eraseNum) delay

/-- The synchronous part of `start()`: sets `_typingStarted`.  (The
scheduling part is modelled by `doStart` on the playback machine.) -/
def start (b : Builder) : Builder :=
  { b with typingStarted := true }

/-- Where the playback machine is between two callbacks:
* `pending text` — a `setTimeout` is armed that will call `#type(text)`;
* `animating text index` — `#type`'s `setInterval` is running;
* `idle` — no timer is armed (terminal);
* `error` — a callback threw (accessing `.delay`/`.text` of `undefined`
  when `_writes[_currentWritesIndex]` is out of range). -/
inductive Phase where
  | pending (text : List Char)
  | animating (text : List Char) (index : Nat)
  | idle
  | error
deriving DecidableEq

/-- Playback-machine state: the element's visible text (`innerText`),
the `typing` and `hide-cursor` classes, `_currentWritesIndex`, and the
timer phase.  The queue is frozen at `start`, so it is a parameter of the
step function, not part of the state. -/
structure PlayState where
  visible : List Char
  typing : Bool
  hideCursorCls : Bool
  cursor : Nat
  phase : Phase
deriving DecidableEq

/-- One character step of `#type`'s interval callback: an erase marker
`'\r'` removes the last visible character (`innerText.slice(0, -1)`), any
other character is appended. -/
def applyChar (v : List Char) (c : Char) : List Char :=
  if c = '\r' then v.dropLast else v ++ [c]

/-- Body of `start()` past the `_typingStarted` flag: an empty queue means
no timer is armed; otherwise `_writes[_currentWritesIndex]!` is read and a
`setTimeout` for `#type` of its text is armed — when the index is out of
range the non-null assertion is wrong and evaluating `firstWriteEl.delay`
throws. -/
def doStart (ws : List Instr) (s : PlayState) : PlayState :=
  if ws.isEmpty then { s with phase := .idle }
  else
    match ws[s.cursor]? with
    | some w => { s with phase := .pending w.text }
    | none => { s with phase := .error }

/-- Element state before playback: visible text `v`, neither class set,
`_currentWritesIndex = 0`, no timer armed. -/
def initPlay (v : List Char) : PlayState :=
  { visible := v, typing := false, hideCursorCls := false, cursor := 0,
    phase := .idle }

/-- The machine right after the user's `start()` call on an element whose
visible text is `v`. -/
def startMachine (ws : List Instr) (v : List Char) : PlayState :=
  doStart ws (initPlay v)

/-- One timer callback of the playback phase.
* `pending text`: the `setTimeout` fires; `#type(text)` toggles the
  `typing` class on and arms the interval at index 0.
* `animating text i`: the interval fires.  At `i = text.length` the
  instruction is finished: the `typing` class is toggled off, the interval
  cleared, `_currentWritesIndex` incremented; then either the next
  instruction is scheduled, or (loop) the cursor is reset to `loopFrom`
  and `start()` re-runs, or (hideCursorOnEnd) the `hide-cursor` class is
  added, or the machine goes idle.  Otherwise exactly the character at `i`
  is processed and the index advances.
* `idle` / `error`: no timer fires; the state is terminal. -/
def tick (cfg : Config) (ws : List Instr) (s : PlayState) : PlayState :=
  match s.phase with
  | .pending text => { s with typing := true, phase := .animating text 0 }
  | .animating text i =>
    if i = text.length then
      let s1 : PlayState := { s with typing := false, cursor := s.cursor + 1 }
      match ws[s1.cursor]? with
      | some w => { s1 with phase := .pending w.text }
      | none =>
        if cfg.loop then
          doStart ws { s1 with cursor := cfg.loopFrom }
        else if cfg.hideCursorOnEnd then
          { s1 with hideCursorCls := true, phase := .idle }
        else
          { s1 with phase := .idle }
    else
      match text[i]? with
      | some c =>
          { s with visible := applyChar s.visible c,
                   phase := .animating text (i + 1) }
      | none => { s with phase := .animating text (i + 1) }
  | .idle => s
  | .error => s

/-- The successive values of the visible text while the characters `cs`
are processed one per tick starting from visible text `v` (value before
the first character, …, value after the last). -/
def charTrace (v : List Char) : List Char → List (List Char)
  | [] => [v]
  | c :: cs => v :: charTrace (applyChar v c) cs

/-- Visible text after processing all characters of `cs` from `v`. -/
def runChars (v : List Char) (cs : List Char) : List Char :=
  cs.foldl applyChar v

/-- A builder-phase API call: a user-level `write` or `erase`. -/
inductive Action where
  | write (text : List Char) (delay : Nat)
  | erase (count : Int) (delay : Nat)
deriving DecidableEq

/-- State reached after one API call (the error, if thrown, propagates to
the caller; the mutated instance remains). -/
def applyAction (b : Builder) (a : Action) : Builder :=
  match a with
  | .write t d => (write b t d).2
  | .erase c d => (erase b c d).2

/-- Builder state after a sequence of user-level calls on a fresh
instance. -/
def runActs (acts : List Action) : Builder :=
  acts.foldl applyAction initBuilder

/-- Sum of the text lengths of the queued instructions — i.e. of every
text that was passed to the `write` method (each successful call appends
exactly its argument). -/
def instrLenSum : List Instr → Int
  | [] => 0
  | w :: rest => (w.text.length : Int) + instrLenSum rest

/-- Sum of the lengths of the texts of the user-level `write` calls. -/
def writtenSum : List Action → Int
  | [] => 0
  | .write t _ :: rest => (t.length : Int) + writtenSum rest
  | .erase _ _ :: rest => writtenSum rest

/-- Sum of the counts of the user-level `erase` calls. -/
def erasedSum : List Action → Int
  | [] => 0
  | .write _ _ :: rest => erasedSum rest
  | .erase c _ :: rest => c + erasedSum rest

/-- All erase counts in the call sequence are nonnegative (the sensible
use of the `count : number` parameter). -/
def nonnegCounts : List Action → Bool
  | [] => true
  | .write _ _ :: rest => nonnegCounts rest
  | .erase c _ :: rest => decide (0 ≤ c) && nonnegCounts rest

/-- Concrete data for witnesses: default-like configuration. -/
def cfg0 : Config :=
  { typeDelay := 150, loop := false, loopFrom := 0, hideCursorOnEnd := false }

/-- Looping configuration restarting from index 0. -/
def cfgLoop0 : Config :=
  { typeDelay := 150, loop := true, loopFrom := 0, hideCursorOnEnd := false }

/-- Looping configuration whose `loopFrom` is out of range for a
one-instruction queue. -/
def cfgLoopBad : Config :=
  { typeDelay := 150, loop := true, loopFrom := 1, hideCursorOnEnd := false }

/-- One-instruction queue writing the single character `A`. -/
def wsA : List Instr := [⟨['A'], 0⟩]

/-- Machine state in which the single instruction of `wsA` has just
consumed its last character: the next interval tick finishes it. -/
def sFin : PlayState :=
  { visible := ['A'], typing := true, hideCursorCls := false, cursor := 0,
    phase := .animating ['A'] 1 }

/-! ### Builder-phase lemmas -/

theorem write_typingStarted (b : Builder) (t : List Char) (d : Nat) :
    (write b t d).2.typingStarted = b.typingStarted := by
  simp only [write]
  split <;> rfl

theorem write_eraseNum (b : Builder) (t : List Char) (d : Nat) :
    (write b t d).2.eraseNum = b.eraseNum := by
  simp only [write]
  split <;> rfl

theorem erase_typingStarted (b : Builder) (c : Int) (d : Nat) :
    (erase b c d).2.typingStarted = b.typingStarted := by
  simp only [erase]
  split
  · rfl
  · rw [write_typingStarted]

theorem erase_eraseNum (b : Builder) (c : Int) (d : Nat) :
    (erase b c d).2.eraseNum = b.eraseNum + c := by
  simp only [erase]
  split
  · rfl
  · rw [write_eraseNum]

theorem applyAction_typingStarted (b : Builder) (a : Action) :
    (applyAction b a).typingStarted = b.typingStarted := by
  cases a with
  | write t d => exact write_typingStarted b t d
  | erase c d => exact erase_typingStarted b c d

theorem foldl_typingStarted (acts : List Action) (b : Builder) :
    (acts.foldl applyAction b).typingStarted = b.typingStarted := by
  induction acts generalizing b with
  | nil => rfl
  | cons a rest ih => rw [List.foldl_cons, ih, applyAction_typingStarted]

theorem instrLenSum_append (l1 l2 : List Instr) :
    instrLenSum (l1 ++ l2) = instrLenSum l1 + instrLenSum l2 := by
  induction l1 with
  | nil => simp [instrLenSum]
  | cons w rest ih => simp [instrLenSum, ih]; ring

theorem applyAction_inv (b : Builder) (a : Action)
    (h : b.charsNum = instrLenSum b.writes - b.eraseNum) :
    (applyAction b a).charsNum
      = instrLenSum (applyAction b a).writes - (applyAction b a).eraseNum := by
  cases a with
  | write t d =>
    simp only [applyAction, write]
    split
    · exact h
    · simp [instrLenSum_append, instrLenSum, h]; ring
  | erase c d =>
    simp only [applyAction, erase, write]
    split
    · simpa using by omega
    · split
      · simpa using by omega
      · simp [instrLenSum_append, instrLenSum, h]; ring

theorem foldl_inv (acts : List Action) (b : Builder)
    (h : b.charsNum = instrLenSum b.writes - b.eraseNum) :
    (acts.foldl applyAction b).charsNum
      = instrLenSum (acts.foldl applyAction b).writes
        - (acts.foldl applyAction b).eraseNum := by
  induction acts generalizing b with
  | nil => exact h
  | cons a rest ih => exact ih _ (applyAction_inv b a h)

theorem applyAction_eraseNum (b : Builder) (a : Action) :
    (applyAction b a).eraseNum
      = b.eraseNum + (match a with | .write _ _ => 0 | .erase c _ => c) := by
  cases a with
  | write t d => simpa using write_eraseNum b t d
  | erase c d => simpa using erase_eraseNum b c d

theorem foldl_eraseNum (acts : List Action) (b : Builder) :
    (acts.foldl applyAction b).eraseNum = b.eraseNum + erasedSum acts := by
  induction acts generalizing b with
  | nil => simp [erasedSum]
  | cons a rest ih =>
    rw [List.foldl_cons, ih, applyAction_eraseNum]
    cases a with
    | write t d => simp [erasedSum]
    | erase c d =>
      simp [erasedSum]
      ring

theorem foldl_charsNum_nonneg (acts : List Action) (b : Builder)
    (hnn : nonnegCounts acts = true) (hns : b.typingStarted = false) :
    (acts.foldl applyAction b).charsNum = b.charsNum + writtenSum acts := by
  induction acts generalizing b with
  | nil => simp [writtenSum]
  | cons a rest ih =>
    cases a with
    | write t d =>
      simp only [nonnegCounts] at hnn
      rw [List.foldl_cons]
      rw [ih _ hnn (by rw [applyAction_typingStarted]; exact hns)]
      simp [applyAction, write, hns, writtenSum]
      ring
    | erase c d =>
      simp only [nonnegCounts, Bool.and_eq_true, decide_eq_true_eq] at hnn
      rw [List.foldl_cons]
      rw [ih _ hnn.2 (by rw [applyAction_typingStarted]; exact hns)]
      have hc : ¬ c < 0 := by omega
      simp [applyAction, erase, write, hns, hc, writtenSum,
        Int.toNat_of_nonneg hnn.1]

/-- Claim C2: for every sequence of `write` / `erase` calls made before
`start`, the tracked `_charsNum` equals the sum of the lengths of the
texts passed to the `write` method minus the sum of the counts passed to
`erase`, and `_eraseNum` equals that erase-count sum.  Since each
successful `write` call appends exactly its text to `_writes` (and
`erase` delegates its `'\r'`-marker text to `write`), the texts passed to
`write` are exactly the queued instructions, summed by `instrLenSum`.
Quantifying over all call sequences gives the property at every point
before playback. -/
theorem charsNum_tracks_writes_minus_erases (acts : List Action) :
    (runActs acts).charsNum
      = instrLenSum (runActs acts).writes - erasedSum acts
    ∧ (runActs acts).eraseNum = erasedSum acts := by
  have hz : initBuilder.eraseNum = 0 := rfl
  have he := foldl_eraseNum acts initBuilder
  rw [hz, zero_add] at he
  constructor
  · have h0 : initBuilder.charsNum
        = instrLenSum initBuilder.writes - initBuilder.eraseNum := by
      simp [initBuilder, instrLenSum]
    have h1 := foldl_inv acts initBuilder h0
    show (acts.foldl applyAction initBuilder).charsNum = _
    rw [h1, he]
    rfl
  · exact he

theorem erase_nonneg_result (b : Builder) (c : Int) (d : Nat)
    (hts : b.typingStarted = false) (hc : 0 ≤ c) :
    (erase b c d).2
      = { writes := b.writes ++ [⟨List.replicate c.toNat '\r', d⟩],
          eraseNum := b.eraseNum + c,
          charsNum := b.charsNum,
          typingStarted := false } := by
  have h1 : ¬ c < 0 := not_lt.mpr hc
  simp only [erase, write, h1, if_false, hts, Bool.false_eq_true, if_neg,
    List.length_replicate]
  simp [Int.toNat_of_nonneg hc, hts]

theorem eraseLast_result (b : Builder) (d : Nat) (last : Instr)
    (hlast : b.writes.getLast? = some last) (hts : b.typingStarted = false) :
    (eraseLast b d).2
      = { writes := b.writes ++ [⟨List.replicate last.text.length '\r', d⟩],
          eraseNum := b.eraseNum + (last.text.length : Int),
          charsNum := b.charsNum,
          typingStarted := false } := by
  simp only [eraseLast, hlast]
  rw [erase_nonneg_result b _ d hts (Int.natCast_nonneg _)]
  simp

theorem runActs_typingStarted (acts : List Action) :
    (runActs acts).typingStarted = false :=
  foldl_typingStarted acts initBuilder

theorem runActs_charsNum (acts : List Action) (hnn : nonnegCounts acts = true) :
    (runActs acts).charsNum = writtenSum acts := by
  have h := foldl_charsNum_nonneg acts initBuilder hnn rfl
  rw [show initBuilder.charsNum = 0 from rfl, zero_add] at h
  exact h

theorem runActs_eraseNum (acts : List Action) :
    (runActs acts).eraseNum = erasedSum acts := by
  have h := foldl_eraseNum acts initBuilder
  rw [show initBuilder.eraseNum = 0 from rfl, zero_add] at h
  exact h

/-- Claim C3 (amended): before `start`, for every call sequence whose
erase counts are nonnegative and for which the computed total
`elemLen + writtenSum - erasedSum` (element's visible length + characters
queued by `write` calls − characters already scheduled for erase) is
nonnegative, `eraseAll` throws nothing and queues an erase instruction of
exactly that many `'\r'` markers; in particular a pre-seeded element text
of length 5 and one queued write of length 3 give an erase of 8.  (As
stated the claim also covered states where the computed total is
negative; there `'\r'.repeat` throws a `RangeError` and nothing is
queued, and with negative erase counts `_charsNum`/`_eraseNum` no longer
match the claim's formula — see the counterexample.) -/
theorem eraseAll_count (acts : List Action) (elemLen d : Nat)
    (hnn : nonnegCounts acts = true)
    (hc : 0 ≤ (elemLen : Int) + writtenSum acts - erasedSum acts) :
    (eraseAll (runActs acts) elemLen d).1 = none
    ∧ (eraseAll (runActs acts) elemLen d).2.writes
        = (runActs acts).writes
          ++ [⟨List.replicate
                ((elemLen : Int) + writtenSum acts - erasedSum acts).toNat
                '\r', d⟩]
    ∧ (eraseAll (runActs acts) elemLen d).2.eraseNum
        = erasedSum acts
          + ((elemLen : Int) + writtenSum acts - erasedSum acts) := by
  have hch := runActs_charsNum acts hnn
  have her := runActs_eraseNum acts
  have hts := runActs_typingStarted acts
  have hkey : (eraseAll (runActs acts) elemLen d)
      = erase (runActs acts)
          ((elemLen : Int) + writtenSum acts - erasedSum acts) d := by
    simp only [eraseAll, hch, her]
  refine ⟨?_, ?_, ?_⟩
  · rw [hkey]
    have h1 : ¬ (elemLen : Int) + writtenSum acts - erasedSum acts < 0 :=
      not_lt.mpr hc
    simp [erase, write, h1, hts]
  · rw [hkey, erase_nonneg_result _ _ _ hts hc]
  · rw [hkey, erase_nonneg_result _ _ _ hts hc, ← her]

/-- Counterexample to claim C3 as stated: after a single `erase(10)` call
on a fresh instance (so `_eraseNum = 10`, `_charsNum = 0`) and with an
empty element, the claimed count is `0 + 0 - 10 = -10`, and `eraseAll`
does not queue an erase instruction of that count — it throws the
`RangeError` of `'\r'.repeat(-10)` and leaves the queue unchanged.
Moreover after `erase(-3)` (counters `_eraseNum = -3`, `_charsNum = 3`,
nothing queued) the claimed count would be `0 + 0 - (-3) = 3`, but
`eraseAll` queues an erase of `0 + 3 - (-3) = 6` markers. -/
theorem eraseAll_claim_false :
    (eraseAll (erase initBuilder 10 0).2 0 0).1 = some EWError.rangeError
    ∧ (eraseAll (erase initBuilder 10 0).2 0 0).2.writes
        = (erase initBuilder 10 0).2.writes
    ∧ (eraseAll (erase initBuilder (-3) 0).2 0 0).2.writes
        = [⟨List.replicate 6 '\r', 0⟩] := by
  decide

/-- Witness for the amended C3 at the spec's concrete instance: element
text of length 5, one queued write of length 3, so `eraseAll` queues an
erase of exactly 8 markers. -/
theorem eraseAll_count_witness :
    0 ≤ (5 : Int) + writtenSum [Action.write ['a', 'b', 'c'] 0]
          - erasedSum [Action.write ['a', 'b', 'c'] 0]
    ∧ (eraseAll (runActs [Action.write ['a', 'b', 'c'] 0]) 5 0).2.writes
        = [⟨['a', 'b', 'c'], 0⟩, ⟨List.replicate 8 '\r', 0⟩] :=
  ⟨by decide,
   ((eraseAll_count [Action.write ['a', 'b', 'c'] 0] 5 0 (by decide)
      (by decide)).2.1).trans (by decide)⟩

/-- Claim C5 (amended): after `start()`, every `write` call throws
`AlreadyStartedError` regardless of arguments, and every `erase` call
with a nonnegative count throws `AlreadyStartedError`.  (As stated the
claim said "regardless of arguments" for `erase` too, but a negative
count makes `'\r'.repeat(count)` throw a `RangeError` before the
already-started check in `write` is reached — see the counterexample.) -/
theorem write_erase_fail_after_start (b : Builder) (t : List Char)
    (d1 : Nat) (c : Int) (d2 : Nat) (hs : b.typingStarted = true) :
    (write b t d1).1 = some EWError.alreadyStarted
    ∧ (0 ≤ c → (erase b c d2).1 = some EWError.alreadyStarted) := by
  constructor
  · simp [write, hs]
  · intro hc
    have h1 : ¬ c < 0 := not_lt.mpr hc
    simp [erase, write, hs, h1]

/-- Counterexample to claim C5 as stated: calling `erase(-1)` after
`start()` throws the `RangeError` of `'\r'.repeat(-1)`, not
`AlreadyStartedError`. -/
theorem erase_after_start_rangeError :
    (erase (start initBuilder) (-1) 0).1 = some EWError.rangeError
    ∧ ¬ (erase (start initBuilder) (-1) 0).1
          = some EWError.alreadyStarted := by
  decide

/-- Witness for the amended C5 on a started fresh instance. -/
theorem write_erase_fail_after_start_witness :
    (write (start initBuilder) ['x'] 0).1 = some EWError.alreadyStarted
    ∧ (erase (start initBuilder) 2 0).1 = some EWError.alreadyStarted :=
  ⟨(write_erase_fail_after_start (start initBuilder) ['x'] 0 2 0 rfl).1,
   (write_erase_fail_after_start (start initBuilder) ['x'] 0 2 0 rfl).2
     (by decide)⟩

/-- Claim C6: `eraseLast` throws `NoPriorWriteError` exactly when the
instruction queue is empty; before `start`, when the most recent queued
instruction has text of length `N` it queues an erase of exactly `N`
markers; and after a `write` of text `t` followed by two consecutive
`eraseLast` calls, the second call erases the length of the previous
synthetic erase instruction (`N = t.length` markers), i.e. it measures
the synthetic `'\r'`-text rather than any original content. -/
theorem eraseLast_spec (b : Builder) (d : Nat) :
    ((eraseLast b d).1 = some EWError.noPriorWrite ↔ b.writes = [])
    ∧ (∀ last, b.writes.getLast? = some last → b.typingStarted = false →
        (eraseLast b d).2.writes
          = b.writes ++ [⟨List.replicate last.text.length '\r', d⟩])
    ∧ (∀ (t : List Char) (d1 d2 d3 : Nat), b.typingStarted = false →
        (eraseLast (eraseLast (write b t d1).2 d2).2 d3).2.writes.getLast?
          = some ⟨List.replicate t.length '\r', d3⟩) := by
  refine ⟨?_, ?_, ?_⟩
  · cases hlast : b.writes.getLast? with
    | none =>
      have hnil : b.writes = [] := List.getLast?_eq_none_iff.mp hlast
      simp [eraseLast, hlast, hnil]
    | some last =>
      have hne : ¬ b.writes = [] := by
        intro hnil
        rw [hnil] at hlast
        exact Option.noConfusion hlast
      simp only [eraseLast, hlast]
      constructor
      · intro h
        exfalso
        have h1 : ¬ (last.text.length : Int) < 0 :=
          not_lt.mpr (Int.natCast_nonneg _)
        simp only [erase, write, h1, if_false] at h
        split at h <;> simp_all
      · intro h
        exact absurd h hne
  · intro last hlast hts
    rw [eraseLast_result b d last hlast hts]
  · intro t d1 d2 d3 hts
    have hb1 : (write b t d1).2
        = { b with charsNum := b.charsNum + (t.length : Int),
                   writes := b.writes ++ [⟨t, d1⟩] } := by
      simp [write, hts]
    rw [hb1]
    have h2 := eraseLast_result
      { b with charsNum := b.charsNum + (t.length : Int),
               writes := b.writes ++ [⟨t, d1⟩] }
      d2 ⟨t, d1⟩ (List.getLast?_concat _) hts
    rw [h2]
    have h3 := eraseLast_result
      { writes := (b.writes ++ [⟨t, d1⟩])
          ++ [⟨List.replicate t.length '\r', d2⟩],
        eraseNum := b.eraseNum + (t.length : Int),
        charsNum := b.charsNum + (t.length : Int),
        typingStarted := false }
      d3 ⟨List.replicate t.length '\r', d2⟩ (List.getLast?_concat _) rfl
    rw [h3]
    simp [List.getLast?_concat, List.length_replicate]

/-- Witness for C6: a fresh instance with a single queued write of
length 2 and delay 0; `eraseLast(7)` queues two erase markers, while on
the empty fresh instance it throws `NoPriorWriteError`. -/
theorem eraseLast_spec_witness :
    (eraseLast initBuilder 0).1 = some EWError.noPriorWrite
    ∧ (eraseLast (write initBuilder ['a', 'b'] 0).2 7).2.writes
        = [⟨['a', 'b'], 0⟩, ⟨List.replicate 2 '\r', 7⟩] :=
  ⟨(eraseLast_spec initBuilder 0).1.mpr rfl,
   ((eraseLast_spec (write initBuilder ['a', 'b'] 0).2 7).2.1
      ⟨['a', 'b'], 0⟩ (by decide) (by decide)).trans (by decide)⟩

/-- Claim C9 (amended): after `start()`, `erase(c, d)` with a nonnegative
`c` throws `AlreadyStartedError`, and — whatever the sign of `c` and
hence whatever error is thrown — the instance keeps `_eraseNum` increased
by `c` and `_charsNum` decreased by `c`: the failing call is not atomic.
`eraseLast` behaves the same whenever the queue is nonempty (on an empty
queue it throws `NoPriorWriteError` before mutating anything), and
`eraseAll` whenever its computed count is nonnegative. -/
theorem erase_not_atomic_after_start (b : Builder) (c : Int) (d : Nat)
    (e : Nat) (hs : b.typingStarted = true) :
    ((erase b c d).2.eraseNum = b.eraseNum + c
      ∧ (erase b c d).2.charsNum = b.charsNum - c
      ∧ (0 ≤ c → (erase b c d).1 = some EWError.alreadyStarted))
    ∧ (∀ last, b.writes.getLast? = some last →
        (eraseLast b d).1 = some EWError.alreadyStarted
        ∧ (eraseLast b d).2.eraseNum = b.eraseNum + (last.text.length : Int)
        ∧ (eraseLast b d).2.charsNum
            = b.charsNum - (last.text.length : Int))
    ∧ (0 ≤ (e : Int) + b.charsNum - b.eraseNum →
        (eraseAll b e d).1 = some EWError.alreadyStarted
        ∧ (eraseAll b e d).2.eraseNum
            = b.eraseNum + ((e : Int) + b.charsNum - b.eraseNum)) := by
  have hmut : ∀ (c' : Int) (d' : Nat),
      (erase b c' d').2.eraseNum = b.eraseNum + c'
      ∧ (erase b c' d').2.charsNum = b.charsNum - c' := by
    intro c' d'
    simp only [erase, write]
    split
    · exact ⟨rfl, rfl⟩
    · simp [hs]
  have hfail : ∀ (c' : Int) (d' : Nat), 0 ≤ c' →
      (erase b c' d').1 = some EWError.alreadyStarted := by
    intro c' d' hc
    have h1 : ¬ c' < 0 := not_lt.mpr hc
    simp [erase, write, hs, h1]
  refine ⟨⟨(hmut c d).1, (hmut c d).2, fun hc => hfail c d hc⟩, ?_, ?_⟩
  · intro last hlast
    simp only [eraseLast, hlast]
    exact ⟨hfail _ d (Int.natCast_nonneg _), (hmut _ d).1, (hmut _ d).2⟩
  · intro hc
    simp only [eraseAll]
    exact ⟨hfail _ d hc, (hmut _ d).1⟩

/-- Counterexample to claim C9 as stated: for the count `-2`, `erase`
after `start()` does not throw `AlreadyStartedError` (it throws the
`RangeError` of `'\r'.repeat(-2)`), even though the counters are still
mutated by `-2`. -/
theorem erase_neg_after_start_not_alreadyStarted :
    ¬ (erase (start initBuilder) (-2) 3).1 = some EWError.alreadyStarted
    ∧ (erase (start initBuilder) (-2) 3).2.eraseNum = -2
    ∧ (erase (start initBuilder) (-2) 3).2.charsNum = 2 := by
  decide

/-- Started instance with one queued write of length 2, used to witness
the amended C9. -/
def bw9 : Builder := start (write initBuilder ['a', 'b'] 0).2

/-- Witness for the amended C9: on `bw9`, `erase(1)` fails yet bumps
`_eraseNum` to 1, and `eraseLast` / `eraseAll` fail with
`AlreadyStartedError` while still mutating the counters. -/
theorem erase_not_atomic_after_start_witness :
    (erase bw9 1 0).1 = some EWError.alreadyStarted
    ∧ (erase bw9 1 0).2.eraseNum = 1
    ∧ (eraseLast bw9 0).1 = some EWError.alreadyStarted
    ∧ (eraseAll bw9 0 0).1 = some EWError.alreadyStarted :=
  ⟨(erase_not_atomic_after_start bw9 1 0 0 rfl).1.2.2 (by decide),
   ((erase_not_atomic_after_start bw9 1 0 0 rfl).1.1).trans (by decide),
   ((erase_not_atomic_after_start bw9 1 0 0 rfl).2.1 ⟨['a', 'b'], 0⟩
      (by decide)).1,
   ((erase_not_atomic_after_start bw9 1 0 0 rfl).2.2 (by decide)).1⟩

/-! ### Playback-machine lemmas -/

theorem doStart_typing (ws : List Instr) (s : PlayState) :
    (doStart ws s).typing = s.typing := by
  simp only [doStart]
  split
  · rfl
  · split <;> rfl

theorem doStart_phase_ne_animating (ws : List Instr) (s : PlayState)
    (text : List Char) (i : Nat) :
    (doStart ws s).phase ≠ Phase.animating text i := by
  simp only [doStart]
  split
  · simp
  · split <;> simp

theorem doStart_phase_ne_idle (ws : List Instr) (s : PlayState)
    (hne : ws ≠ []) : (doStart ws s).phase ≠ Phase.idle := by
  simp only [doStart]
  split
  · rename_i h
    exact absurd (List.isEmpty_iff.mp h) hne
  · split <;> simp

theorem doStart_phase_ne_error (ws : List Instr) (s : PlayState)
    (h : s.cursor < ws.length ∨ ws = []) :
    (doStart ws s).phase ≠ Phase.error := by
  simp only [doStart]
  split
  · simp
  · rcases h with h | h
    · rw [List.getElem?_eq_getElem h]
      simp
    · rename_i hne
      rw [h] at hne
      simp at hne

theorem tick_not_error (cfg : Config) (ws : List Instr) (s : PlayState)
    (hlf : cfg.loop = true → cfg.loopFrom < ws.length)
    (hs : s.phase ≠ Phase.error) : (tick cfg ws s).phase ≠ Phase.error := by
  cases hph : s.phase with
  | pending text => simp [tick, hph]
  | animating text i =>
    simp only [tick, hph]
    split
    · cases hnext : ws[s.cursor + 1]? with
      | some w => simp [hnext]
      | none =>
        simp only [hnext]
        split
        · rename_i hloop
          rcases List.eq_nil_or_concat ws with hws | _
          · exact doStart_phase_ne_error ws _ (Or.inr hws)
          · exact doStart_phase_ne_error ws _ (Or.inl (hlf hloop))
        · split <;> simp
    · cases hc : text[i]? with
      | some c => simp [hc]
      | none => simp [hc]
  | idle => simp [tick, hph]
  | error => exact absurd hph hs

theorem tick_not_idle (cfg : Config) (ws : List Instr) (s : PlayState)
    (hloop : cfg.loop = true) (hne : ws ≠ [])
    (hs : s.phase ≠ Phase.idle) : (tick cfg ws s).phase ≠ Phase.idle := by
  cases hph : s.phase with
  | pending text => simp [tick, hph]
  | animating text i =>
    simp only [tick, hph]
    split
    · cases hnext : ws[s.cursor + 1]? with
      | some w => simp [hnext]
      | none =>
        simp only [hnext, hloop, if_pos]
        exact doStart_phase_ne_idle ws _ hne
    · cases hc : text[i]? with
      | some c => simp [hc]
      | none => simp [hc]
  | idle => exact absurd hph hs
  | error => simp [tick, hph]

theorem tick_typing_inv (cfg : Config) (ws : List Instr) (s : PlayState)
    (hs : ∀ (text : List Char) (i : Nat),
      s.phase = Phase.animating text i → s.typing = true) :
    ∀ (text : List Char) (i : Nat),
      (tick cfg ws s).phase = Phase.animating text i →
      (tick cfg ws s).typing = true := by
  obtain ⟨vis, ty, hcc, cur, ph⟩ := s
  intro text i htick
  cases ph with
  | pending t0 => rfl
  | animating t0 i0 =>
    have hty : ty = true := hs t0 i0 rfl
    subst hty
    simp only [tick] at htick ⊢
    by_cases hfin : i0 = t0.length
    · rw [if_pos hfin] at htick ⊢
      cases hnext : ws[cur + 1]? with
      | some w =>
        rw [hnext] at htick
        simp at htick
      | none =>
        rw [hnext] at htick
        by_cases hloop : cfg.loop = true
        · rw [if_pos hloop] at htick
          exact absurd htick (doStart_phase_ne_animating ws _ text i)
        · rw [if_neg hloop] at htick
          by_cases hhide : cfg.hideCursorOnEnd = true
          · rw [if_pos hhide] at htick
            simp at htick
          · rw [if_neg hhide] at htick
            simp at htick
    · rw [if_neg hfin]
      cases hc : t0[i0]? with
      | some c => rfl
      | none => rfl
  | idle => exact absurd htick (by simp [tick])
  | error => exact absurd htick (by simp [tick])

theorem runChars_replicate_erase (n : Nat) :
    ∀ v : List Char, v.length ≤ n →
      runChars v (List.replicate n '\r') = [] := by
  induction n with
  | zero =>
    intro v hv
    rw [Nat.le_zero] at hv
    rw [List.length_eq_zero.mp hv]
    rfl
  | succ n ih =>
    intro v hv
    rw [List.replicate_succ]
    show runChars (applyChar v '\r') (List.replicate n '\r') = []
    have hd : applyChar v '\r' = v.dropLast := by simp [applyChar]
    rw [hd]
    exact ih v.dropLast (by rw [List.length_dropLast]; omega)

/-- Machine state in which the instruction `['A']` has just been entered:
the interval is armed at index 0, nothing typed yet. -/
def sAnim0 : PlayState :=
  { visible := [], typing := true, hideCursorCls := false, cursor := 0,
    phase := .animating ['A'] 0 }

/-! ### Playback claims -/

/-- Claim C1: during playback of one instruction, each interval tick
processes exactly one character: at index `i < text.length` the machine
moves to index `i + 1` having applied exactly the character `text[i]` to
the visible text; a normal character is appended and the erase marker
`'\r'` removes one trailing character; consequently the instruction
`"Hi"` drives the visible text through exactly `"" → "H" → "Hi"` and an
erase instruction of count 2 against visible `"Hi"` through
`"Hi" → "H" → ""`.  (The per-character delay `typeDelay` only spaces the
ticks in real time and cannot reorder them.) -/
theorem one_char_per_tick :
    (∀ (cfg : Config) (ws : List Instr) (s : PlayState) (text : List Char)
        (i : Nat), s.phase = Phase.animating text i →
        ∀ (h : i < text.length),
        tick cfg ws s
          = { s with visible := applyChar s.visible text[i],
                     phase := Phase.animating text (i + 1) })
    ∧ (∀ (v : List Char) (c : Char), ¬ c = '\r' → applyChar v c = v ++ [c])
    ∧ (∀ v : List Char, applyChar v '\r' = v.dropLast)
    ∧ charTrace [] ['H', 'i'] = [[], ['H'], ['H', 'i']]
    ∧ charTrace ['H', 'i'] ['\r', '\r'] = [['H', 'i'], ['H'], []] := by
  refine ⟨?_, ?_, ?_, by decide, by decide⟩
  · intro cfg ws s text i hph h
    obtain ⟨vis, ty, hcc, cur, ph⟩ := s
    cases ph with
    | animating t0 i0 =>
      have h1 : t0 = text := congrArg
        (fun p => match p with | Phase.animating t _ => t | _ => []) hph
      have h2 : i0 = i := congrArg
        (fun p => match p with | Phase.animating _ j => j | _ => 0) hph
      subst h1
      subst h2
      simp only [tick]
      rw [if_neg (Nat.ne_of_lt h), List.getElem?_eq_getElem h]
    | pending t0 => exact absurd hph (by simp)
    | idle => exact absurd hph (by simp)
    | error => exact absurd hph (by simp)
  · intro v c hc
    simp [applyChar, hc]
  · intro v
    simp [applyChar]

/-- Witness for C1 at the instruction `['A']`: the first interval tick
appends `A`, and a normal character appends while the marker erases. -/
theorem one_char_per_tick_witness :
    tick cfg0 wsA sAnim0
      = { sAnim0 with visible := ['A'], phase := Phase.animating ['A'] 1 }
    ∧ applyChar [] 'H' = ['H'] :=
  ⟨(one_char_per_tick.1 cfg0 wsA sAnim0 ['A'] 0 rfl (by decide)).trans
     (by decide),
   (one_char_per_tick.2.1 [] 'H' (by decide)).trans (by decide)⟩

/-- Claim C10: processing an erase marker on an empty visible text leaves
it empty (`[].slice(0, -1)` is `[]`) and playback keeps going: the step
is total, a character tick always moves to the next index (never an
error state), and an erase instruction with at least as many markers as
there are visible characters ends with the empty text — removal simply
stops doing anything once the text is empty. -/
theorem erase_marker_on_empty_total (cfg : Config) (ws : List Instr)
    (s : PlayState) :
    applyChar [] '\r' = []
    ∧ (∀ v : List Char, applyChar v '\r' = v.dropLast)
    ∧ (∀ (v : List Char) (n : Nat), v.length ≤ n →
        runChars v (List.replicate n '\r') = [])
    ∧ (∀ (text : List Char) (i : Nat), s.phase = Phase.animating text i →
        ¬ i = text.length →
        (tick cfg ws s).phase = Phase.animating text (i + 1)) := by
  refine ⟨by decide, fun v => by simp [applyChar], ?_, ?_⟩
  · intro v n hv
    exact runChars_replicate_erase n v hv
  · intro text i hph hfin
    obtain ⟨vis, ty, hcc, cur, ph⟩ := s
    cases ph with
    | animating t0 i0 =>
      have h1 : t0 = text := congrArg
        (fun p => match p with | Phase.animating t _ => t | _ => []) hph
      have h2 : i0 = i := congrArg
        (fun p => match p with | Phase.animating _ j => j | _ => 0) hph
      subst h1
      subst h2
      simp only [tick]
      rw [if_neg hfin]
      cases hc : t0[i0]? with
      | some c => rfl
      | none => rfl
    | pending t0 => exact absurd hph (by simp)
    | idle => exact absurd hph (by simp)
    | error => exact absurd hph (by simp)

/-- Witness for C10: five erase markers against the two-character text
`"Hi"` end with the empty text, and a mid-instruction tick advances the
index. -/
theorem erase_marker_on_empty_total_witness :
    runChars ['H', 'i'] (List.replicate 5 '\r') = []
    ∧ (tick cfg0 wsA sAnim0).phase = Phase.animating ['A'] 1 :=
  ⟨(erase_marker_on_empty_total cfg0 wsA sAnim0).2.2.1 ['H', 'i'] 5
     (by decide),
   (erase_marker_on_empty_total cfg0 wsA sAnim0).2.2.2 ['A'] 0 rfl
     (by decide)⟩

/-- Counterexample to claim C4: with `loop = true` and `loopFrom = 1` on
a one-instruction queue (every value of `loopFrom` is allowed by the
claim), the loop restart re-invokes `start()`, whose
`_writes[_currentWritesIndex]!` is `undefined`; evaluating
`firstWriteEl.delay` then throws a `TypeError` inside the interval
callback, i.e. during the asynchronous playback phase: after three ticks
the machine is in the error state. -/
theorem loop_out_of_range_async_error :
    (((tick cfgLoopBad wsA)^[3]) (startMachine wsA [])).phase
      = Phase.error := by
  decide

/-- Claim C4 (amended): no error is raised during the asynchronous
playback phase provided that, whenever looping is enabled, the
configured `loopFrom` index lies within the queue frozen at `start`;
every reachable machine state is then free of the error phase.  (Builder
errors — `AlreadyStartedError`, `NoPriorWriteError`, `RangeError`,
`TargetNotFoundError` — are raised synchronously at the violating call;
the out-of-range `loopFrom` case is the one asynchronous error and is
exhibited by the counterexample.) -/
theorem playback_no_error (cfg : Config) (ws : List Instr) (v : List Char)
    (hlf : cfg.loop = true → cfg.loopFrom < ws.length) :
    ∀ n : Nat,
      (((tick cfg ws)^[n]) (startMachine ws v)).phase ≠ Phase.error := by
  intro n
  induction n with
  | zero =>
    simp only [Function.iterate_zero, id_eq, startMachine]
    rcases List.eq_nil_or_concat ws with hws | hws
    · exact doStart_phase_ne_error ws (initPlay v) (Or.inr hws)
    · refine doStart_phase_ne_error ws (initPlay v) (Or.inl ?_)
      obtain ⟨l, a, rfl⟩ := hws
      simp [initPlay]
  | succ n ih =>
    rw [Function.iterate_succ_apply']
    exact tick_not_error cfg ws _ hlf ih

/-- Witness for the amended C4: a non-looping run of the one-instruction
queue is never in the error phase, here after two ticks. -/
theorem playback_no_error_witness :
    (((tick cfg0 wsA)^[2]) (startMachine wsA [])).phase ≠ Phase.error :=
  playback_no_error cfg0 wsA [] (by decide) 2

/-- Claim C7: with looping enabled and a non-empty frozen queue, no
reachable machine state is the idle terminal state; and whenever the
last instruction finishes (the interval reaches its end and
`_writes[_currentWritesIndex + 1]` does not exist), the cursor is reset
to the configured `loopFrom` index and the `start()` body is re-invoked
on the queue — replaying from that index. -/
theorem loop_never_idle (cfg : Config) (ws : List Instr) (v : List Char)
    (s : PlayState) (hloop : cfg.loop = true) (hne : ws ≠ []) :
    (∀ n : Nat,
      (((tick cfg ws)^[n]) (startMachine ws v)).phase ≠ Phase.idle)
    ∧ (∀ text : List Char, s.phase = Phase.animating text text.length →
        ws[s.cursor + 1]? = none →
        tick cfg ws s
          = doStart ws { s with typing := false,
                                cursor := cfg.loopFrom }) := by
  constructor
  · intro n
    induction n with
    | zero =>
      simp only [Function.iterate_zero, id_eq, startMachine]
      exact doStart_phase_ne_idle ws (initPlay v) hne
    | succ n ih =>
      rw [Function.iterate_succ_apply']
      exact tick_not_idle cfg ws _ hloop hne ih
  · intro text hph hnext
    obtain ⟨vis, ty, hcc, cur, ph⟩ := s
    cases ph with
    | animating t0 i0 =>
      have h1 : t0 = text := congrArg
        (fun p => match p with | Phase.animating t _ => t | _ => []) hph
      have h2 : i0 = text.length := congrArg
        (fun p => match p with | Phase.animating _ j => j | _ => 0) hph
      subst h1
      subst h2
      simp only [tick, if_pos]
      simp only [PlayState.cursor] at hnext
      rw [hnext, if_pos hloop]
    | pending t0 => exact absurd hph (by simp)
    | idle => exact absurd hph (by simp)
    | error => exact absurd hph (by simp)

/-- Witness for C7: with `loop = true, loopFrom = 0`, after five ticks
(enough to finish the single instruction and restart it) the machine is
still not idle, and the finishing tick equals the restarted `start()`
body at the loop-from cursor. -/
theorem loop_never_idle_witness :
    (((tick cfgLoop0 wsA)^[5]) (startMachine wsA [])).phase ≠ Phase.idle
    ∧ tick cfgLoop0 wsA sFin
        = doStart wsA { sFin with typing := false,
                                  cursor := cfgLoop0.loopFrom } :=
  ⟨(loop_never_idle cfgLoop0 wsA [] sFin rfl (by decide)).1 5,
   (loop_never_idle cfgLoop0 wsA [] sFin rfl (by decide)).2 ['A'] rfl rfl⟩

/-- Counterexample to claim C8: one tick after `start()` on the
one-instruction queue, the machine is animating the instruction's
characters and the `typing` class is PRESENT on the element
(`classList.toggle('typing', true)` at the start of `#type`), not
toggled off as the claim states. -/
theorem typing_class_claim_false :
    (tick cfg0 wsA (startMachine wsA [])).phase = Phase.animating ['A'] 0
    ∧ (tick cfg0 wsA (startMachine wsA [])).typing = true := by
  decide

/-- Claim C8 (amended): while the characters of an instruction are being
animated the `typing` presentation class is ADDED to the target element
(`#toggleCursor(false)` runs `classList.toggle('typing', true)` when the
instruction's animation begins), and the class is REMOVED again by the
tick on which the instruction's animation ends: in every reachable
machine state that is animating, the class is present, and the finishing
tick clears it. -/
theorem typing_class_during_anim (cfg : Config) (ws : List Instr)
    (v : List Char) (s : PlayState) :
    (∀ (n : Nat) (text : List Char) (i : Nat),
        (((tick cfg ws)^[n]) (startMachine ws v)).phase
          = Phase.animating text i →
        (((tick cfg ws)^[n]) (startMachine ws v)).typing = true)
    ∧ (∀ text : List Char, s.phase = Phase.animating text text.length →
        (tick cfg ws s).typing = false) := by
  constructor
  · intro n
    induction n with
    | zero =>
      intro text i hph
      simp only [Function.iterate_zero, id_eq, startMachine] at hph
      exact absurd hph (doStart_phase_ne_animating ws (initPlay v) text i)
    | succ n ih =>
      simp only [Function.iterate_succ_apply']
      exact tick_typing_inv cfg ws _ ih
  · intro text hph
    obtain ⟨vis, ty, hcc, cur, ph⟩ := s
    cases ph with
    | animating t0 i0 =>
      have h1 : t0 = text := congrArg
        (fun p => match p with | Phase.animating t _ => t | _ => []) hph
      have h2 : i0 = text.length := congrArg
        (fun p => match p with | Phase.animating _ j => j | _ => 0) hph
      subst h1
      subst h2
      simp only [tick, if_pos]
      cases hnext : ws[cur + 1]? with
      | some w => rfl
      | none =>
        by_cases hloop : cfg.loop = true
        · rw [if_pos hloop, doStart_typing]
        · rw [if_neg hloop]
          by_cases hhide : cfg.hideCursorOnEnd = true
          · rw [if_pos hhide]
          · rw [if_neg hhide]
    | pending t0 => exact absurd hph (by simp)
    | idle => exact absurd hph (by simp)
    | error => exact absurd hph (by simp)

/-- Witness for the amended C8: one tick into the animation the class is
present, and the finishing tick on `sFin` removes it. -/
theorem typing_class_during_anim_witness :
    (((tick cfg0 wsA)^[1]) (startMachine wsA [])).typing = true
    ∧ (tick cfg0 wsA sFin).typing = false :=
  ⟨(typing_class_during_anim cfg0 wsA [] sFin).1 1 ['A'] 0 (by decide),
   (typing_class_during_anim cfg0 wsA [] sFin).2 ['A'] rfl⟩

end EasyWriter
